import Mathlib

/-!
Verification development for the Chatbot-RAG retrieval pipeline.

The definitions below are a shallow embedding of the Python sources:
`rag/retriever.py` (VectorRetriever), `utils/reranker.py` (Reranker),
`utils/text_processor.py` (TextProcessor), `rag/chatbot.py` (RAGChatbot).
Python floats are modelled as exact rationals, machine integers as `Nat`,
raised exceptions as `Except String`, and calls to external collaborators
(the chroma vector index, the embedding provider, the Ollama generation
server, the cross-encoder scorer, the langchain text splitter) as explicit
oracle parameters.  Strings are treated over their ASCII fragment, which
is the fragment the source regular expressions `[a-zA-Z]{3,}` act on.
-/

namespace RAG

/-! ## Data model -/

/-- Chunk metadata as stored in the vector index.  `add_documents`
(retriever.py, lines 56-62) coerces every metadata value to a string
before storage, so the stored record is string-valued. -/
structure ChunkMetadata where
  filename : String
  global_chunk_id : String
  page_number : String
  deriving Repr, DecidableEq, Inhabited

/-- A formatted retrieval result, the dictionaries produced by
`_format_search_results` (retriever.py, lines 204-215). -/
structure SearchDoc where
  content : String
  metadata : ChunkMetadata
  distance : Option ℚ
  deriving Repr, DecidableEq, Inhabited

/-- The nested-list result shape of a chroma `collection.query` call and of
`_keyword_search`: a dictionary with keys `documents`, `metadatas`,
`distances`, each holding one inner list per query. -/
structure QueryResults where
  documents : List (List String)
  metadatas : List (List ChunkMetadata)
  distances : List (List ℚ)
  deriving Repr, DecidableEq, Inhabited

/-- The flat result shape of `collection.get(limit=1000)` used by
`_keyword_search` (retriever.py, line 116): the corpus snapshot. -/
structure CorpusSnapshot where
  documents : List String
  metadatas : List ChunkMetadata
  deriving Repr, DecidableEq, Inhabited

/-- `{'documents': [[]], 'metadatas': [[]], 'distances': [[]]}`,
the empty result returned on every failure path of `_keyword_search`. -/
def empty_results : QueryResults :=
  { documents := [[]], metadatas := [[]], distances := [[]] }

/-- `_format_search_results(results)` (retriever.py, lines 204-215):
walks `results['documents'][0]` by index, pairing each content with the
metadata at the same index, and attaches the distance at the same index
when the distances field is non-empty (truthy), `None` otherwise. -/
def format_search_results (results : QueryResults) : List SearchDoc :=
  match results.documents with
  | [] => []
  | docs0 :: _ =>
    if docs0 = [] then []
    else
      let metas0 := results.metadatas.headD []
      let dists0 := results.distances.headD []
      let hasDist : Bool := !results.distances.isEmpty && !dists0.isEmpty
      (List.range docs0.length).map fun i =>
        { content := docs0.getD i ""
          metadata := metas0.getD i default
          distance := if hasDist then some (dists0.getD i 0) else none }

/-! ## Keyword extraction (`_extract_keywords`, retriever.py lines 165-170) -/

/-- The stop-word set of `_extract_keywords`. -/
def stop_words : List String :=
  ["the", "a", "an", "and", "or", "but", "in", "on", "at", "to", "for"]

/-- Python `str.lower()` over the ASCII fragment, as the character-wise
lowering map on the underlying character list. -/
def pyLower (s : String) : String := String.mk (s.data.map Char.toLower)

/-- A regex word character (`\w`), restricted to the ASCII fragment:
letters, digits and the underscore. -/
def isWordChar (c : Char) : Bool := c.isAlphanum || c == '_'

/-- Splits a character list into its maximal runs of word characters,
accumulating the current (reversed) run in the second argument. -/
def wordRunsAux : List Char → List Char → List (List Char)
  | [], cur => if cur = [] then [] else [cur.reverse]
  | c :: cs, cur =>
    if isWordChar c then wordRunsAux cs (c :: cur)
    else if cur = [] then wordRunsAux cs []
    else cur.reverse :: wordRunsAux cs []

/-- Maximal runs of word characters in a character list. -/
def wordRuns (l : List Char) : List (List Char) := wordRunsAux l []

/-- `re.findall(r'\b[a-zA-Z]{3,}\b', text)`: a match is a maximal run of
word characters that consists solely of ASCII letters and has length at
least 3 (a run containing a digit or underscore has no interior word
boundary, so no shorter alphabetic piece of it can match either). -/
def findAlphaWords (text : String) : List String :=
  ((wordRuns text.data).filter
    (fun r => decide (r.length ≥ 3) && r.all Char.isAlpha)).map
    (fun r => String.mk r)

/-- `_extract_keywords(text)`: tokens of `text.lower()`, minus stop words,
first five kept (duplicates are not removed). -/
def extract_keywords (text : String) : List String :=
  let words := findAlphaWords (pyLower text)
  let keywords := words.filter (fun w => !stop_words.contains w)
  keywords.take 5

/-! ## Keyword search (`_keyword_search`, retriever.py lines 114-163) -/

/-- Whether the first character list occurs at the head of the second. -/
def startsWithChars : List Char → List Char → Bool
  | [], _ => true
  | _ :: _, [] => false
  | a :: as, b :: bs => a == b && startsWithChars as bs

/-- Whether the first character list occurs contiguously anywhere in the
second. -/
def hasInfixChars (needle : List Char) : List Char → Bool
  | [] => needle.isEmpty
  | c :: cs => startsWithChars needle (c :: cs) || hasInfixChars needle cs

/-- Python `keyword in doc.lower()`: substring containment against the
lower-cased document text. -/
def contains_keyword (doc kw : String) : Bool :=
  hasInfixChars kw.data (pyLower doc).data

/-- The body of `_keyword_search` after the snapshot fetch succeeded:
select the indices of snapshot documents containing at least one keyword,
score each match by the number of keywords it contains (the inner
generator sums 1 per keyword of the extracted list), sort by score
descending (Python `list.sort` with `reverse=True` is stable), keep the
first `top_k`, and wrap in the nested result shape with distance 0.0. -/
def keyword_search_core (all_docs : CorpusSnapshot) (query_text : String)
    (top_k : Nat) : QueryResults :=
  if all_docs.documents = [] then empty_results
  else
    let keywords := extract_keywords query_text
    if keywords = [] then empty_results
    else
      let matching_indices := (List.range all_docs.documents.length).filter
        (fun i => keywords.any (fun kw =>
          contains_keyword (all_docs.documents.getD i "") kw))
      if matching_indices = [] then empty_results
      else
        let matching_docs :=
          matching_indices.map (fun i => all_docs.documents.getD i "")
        let matching_metadatas :=
          matching_indices.map (fun i => all_docs.metadatas.getD i default)
        let scored_docs := (matching_docs.zip matching_metadatas).map
          (fun p =>
            ((keywords.filter (fun kw => contains_keyword p.1 kw)).length,
              p.1, p.2))
        let sorted := scored_docs.mergeSort (fun a b => b.1 ≤ a.1)
        let top_scored := sorted.take top_k
        { documents := [top_scored.map (fun t => t.2.1)]
          metadatas := [top_scored.map (fun t => t.2.2)]
          distances := [List.replicate top_scored.length 0] }

/-- `_keyword_search(query_text, top_k)`: the whole body sits in a
try/except returning the empty result shape, and the only raising
operation is the snapshot fetch `collection.get(limit=1000)`, modelled as
an `Except` input. -/
def keyword_search (snapshot : Except String CorpusSnapshot)
    (query_text : String) (top_k : Nat) : QueryResults :=
  match snapshot with
  | .error _ => empty_results
  | .ok all_docs => keyword_search_core all_docs query_text top_k

/-! ## Result fusion (`_combine_results`, retriever.py lines 172-202) -/

/-- The deduplication key of `_combine_results` (lines 181, 189):
`metadata.get('filename', '') + str(metadata.get('global_chunk_id', ''))`,
over the string-valued stored metadata. -/
def doc_key (d : SearchDoc) : String :=
  d.metadata.filename ++ d.metadata.global_chunk_id

/-- `doc.get('distance', 0) if doc.get('distance') else 0` (line 184):
a missing distance and the falsy distance 0.0 both read as 0. -/
def dist_value (d : SearchDoc) : ℚ :=
  match d.distance with
  | none => 0
  | some x => if x = 0 then 0 else x

/-- The `all_docs` dictionary of `_combine_results`: insertion-ordered
association list from deduplication key to document and fused score. -/
abbrev FusedDict := List (String × SearchDoc × ℚ)

/-- Python dictionary assignment `all_docs[doc_id] = v`: replaces the
value at an existing key in place (the key keeps its insertion position),
otherwise appends the binding at the end. -/
def dict_insert (k : String) (v : SearchDoc × ℚ) : FusedDict → FusedDict
  | [] => [(k, v)]
  | (k', v') :: rest =>
    if k' = k then (k', v) :: rest else (k', v') :: dict_insert k v rest

/-- The keyword-loop update of `_combine_results` (lines 188-196):
`all_docs[doc_id]['score'] += inc` when the key is present, otherwise a
fresh entry `{'doc': doc, 'score': inc}` appended at the end. -/
def dict_add_score (k : String) (d : SearchDoc) (inc : ℚ) :
    FusedDict → FusedDict
  | [] => [(k, (d, inc))]
  | (k', v') :: rest =>
    if k' = k then (k', (v'.1, v'.2 + inc)) :: rest
    else (k', v') :: dict_add_score k d inc rest

/-- First loop of `_combine_results` (lines 180-185): every semantic
document is entered with score `alpha * (1 - distance-or-zero)`. -/
def add_semantic (alpha : ℚ) (acc : FusedDict) (docs : List SearchDoc) :
    FusedDict :=
  docs.foldl
    (fun acc d => dict_insert (doc_key d) (d, alpha * (1 - dist_value d)) acc)
    acc

/-- Second loop of `_combine_results` (lines 188-196): every keyword
document adds the lexical contribution `(1 - alpha) * 0.8`. -/
def add_keyword (alpha : ℚ) (acc : FusedDict) (docs : List SearchDoc) :
    FusedDict :=
  docs.foldl
    (fun acc d => dict_add_score (doc_key d) d ((1 - alpha) * (4 / 5)) acc)
    acc

/-- The fully populated `all_docs` dictionary. -/
def fused_dict (alpha : ℚ) (semantic_docs keyword_docs : List SearchDoc) :
    FusedDict :=
  add_keyword alpha (add_semantic alpha [] semantic_docs) keyword_docs

/-- `sorted(all_docs.values(), key=lambda x: x['score'], reverse=True)`
(line 199): a stable descending sort of the dictionary entries, in
insertion order, by fused score. -/
def fused_ranking (alpha : ℚ) (semantic_docs keyword_docs : List SearchDoc) :
    FusedDict :=
  (fused_dict alpha semantic_docs keyword_docs).mergeSort
    (fun a b => b.2.2 ≤ a.2.2)

/-- Structural lookup in the fused dictionary (first binding wins, as in a
Python dictionary, whose keys are unique). -/
def dict_find (k : String) : FusedDict → Option (SearchDoc × ℚ)
  | [] => none
  | (k', v') :: rest => if k' = k then some v' else dict_find k rest

/-- The fused score recorded for a deduplication key, when present. -/
def fused_score (alpha : ℚ) (semantic_docs keyword_docs : List SearchDoc)
    (k : String) : Option ℚ :=
  (dict_find k (fused_dict alpha semantic_docs keyword_docs)).map
    (fun v => v.2)

/-- `_combine_results(semantic_results, keyword_results, top_k)`
(retriever.py, lines 172-202): format both raw result sets, fuse them in
the `all_docs` dictionary, sort by score descending and return the first
`top_k` documents. -/
def combine_results (alpha : ℚ) (semantic_results keyword_results : QueryResults)
    (top_k : Nat) : List SearchDoc :=
  let semantic_docs := format_search_results semantic_results
  let keyword_docs := format_search_results keyword_results
  ((fused_ranking alpha semantic_docs keyword_docs).take top_k).map
    (fun e => e.2.1)

/-! ## Search (`search`, `_semantic_search`, `_hybrid_search`,
retriever.py lines 78-112) -/

/-- The retriever and its external collaborators.  `query` models
`collection.query` on the external vector index and `get_snapshot` models
`collection.get(limit=1000)`, both of which can raise.

`hybrid_enabled` and `alpha` — modelled from the spec: the configuration
values `ENABLE_HYBRID_SEARCH` and `HYBRID_ALPHA` are imported by
retriever.py from the config module but are not defined in the config.py
shipped under src/; the spec (section 4.2) describes them as configuration
parameters, with the hybrid weight alpha ranging over `[0,1]`. -/
structure RetrieverEnv where
  query : List ℚ → Nat → Except String QueryResults
  get_snapshot : Except String CorpusSnapshot
  hybrid_enabled : Bool
  alpha : ℚ

/-- `_semantic_search(query_embedding, top_k)` (lines 89-95): a raise in
the index query propagates to the caller. -/
def semantic_search (env : RetrieverEnv) (query_embedding : List ℚ)
    (top_k : Nat) : Except String (List SearchDoc) :=
  (env.query query_embedding top_k).map format_search_results

/-- `_hybrid_search(query_embedding, query_text, top_k)` (lines 97-112):
the semantic index query is NOT wrapped in a local try, so its raise
propagates; the keyword search catches its own failures. -/
def hybrid_search (env : RetrieverEnv) (query_embedding : List ℚ)
    (query_text : String) (top_k : Nat) : Except String (List SearchDoc) := do
  let semantic_results ← env.query query_embedding (top_k * 2)
  let keyword_results := keyword_search env.get_snapshot query_text (top_k * 2)
  pure (combine_results env.alpha semantic_results keyword_results top_k)

/-- Python truthiness of the optional `query_text` argument. -/
def truthy_text : Option String → Bool
  | none => false
  | some s => s ≠ ""

/-- `search(query_embedding, query_text, top_k, use_hybrid)` (lines
78-87): dispatches on `use_hybrid and query_text and ENABLE_HYBRID_SEARCH`
and converts every escaped exception into the empty list. -/
def search (env : RetrieverEnv) (query_embedding : List ℚ)
    (query_text : Option String) (top_k : Nat) (use_hybrid : Bool) :
    List SearchDoc :=
  let body : Except String (List SearchDoc) :=
    if use_hybrid && truthy_text query_text && env.hybrid_enabled then
      hybrid_search env query_embedding (query_text.getD "") top_k
    else
      semantic_search env query_embedding top_k
  match body with
  | .ok r => r
  | .error _ => []

/-! ## Reranker (`Reranker.rerank`, utils/reranker.py lines 29-54) -/

/-- The loaded cross-encoder, as an oracle: `predict` can raise. -/
structure RerankerModel where
  predict : List (String × String) → Except String (List ℚ)

/-- `rerank(query, documents, top_k)`: falls back to `documents[:top_k]`
when the model is absent, the candidate list is empty, or the scorer
raises; otherwise pairs the query with each content, scores, sorts by
score descending (stable) and keeps the first `top_k` documents. -/
def rerank (model : Option RerankerModel) (query : String)
    (documents : List SearchDoc) (top_k : Nat) : List SearchDoc :=
  match model with
  | none => documents.take top_k
  | some m =>
    if documents = [] then documents.take top_k
    else
      match m.predict (documents.map (fun d => (query, d.content))) with
      | .error _ => documents.take top_k
      | .ok scores =>
        let scored_docs := scores.zip documents
        let sorted := scored_docs.mergeSort (fun a b => b.1 ≤ a.1)
        (sorted.take top_k).map (fun p => p.2)

/-! ## Chunking (`TextProcessor`, utils/text_processor.py lines 44-96) -/

/-- Document-level metadata delivered by the ingestion collaborator
(`DocumentLoader`); only the filename is observed by the claims. -/
structure DocMetadata where
  filename : String
  deriving Repr, DecidableEq, Inhabited

/-- One page of a loaded document. -/
structure PageData where
  page_number : Nat
  content : String
  deriving Repr, DecidableEq, Inhabited

/-- One loaded document: `{metadata, pages}`. -/
structure DocumentData where
  metadata : DocMetadata
  pages : List PageData
  deriving Repr, DecidableEq, Inhabited

/-- The metadata record written by `chunk_text` and stamped by
`process_documents`: document metadata merged with page number, per-call
chunk id, chunk size, optional section, and the global chunk id that
`process_documents` assigns afterwards. -/
structure ProcMeta where
  doc_meta : DocMetadata
  page_number : Nat
  chunk_id : Nat
  chunk_size : Nat
  sect : Option String
  global_chunk_id : Option Nat
  deriving Repr, DecidableEq, Inhabited

/-- A processed chunk, `{'content': ..., 'metadata': ...}`. -/
structure Chunk where
  content : String
  metadata : ProcMeta
  deriving Repr, DecidableEq, Inhabited

/-- `chunk_text(text, metadata)` (lines 44-70), parametrised by the two
external text transformations: `split` models
`RecursiveCharacterTextSplitter.split_text` composed with `clean_text`,
and `detect` models `detect_section`.  Empty or whitespace-only input
yields no chunks; otherwise each split piece is enumerated with its
`chunk_id` and `chunk_size`, the global id still unassigned. -/
def chunk_text (split : String → List String) (detect : String → Option String)
    (text : String) (doc_meta : DocMetadata) (page_number : Nat) :
    List Chunk :=
  if text.trim = "" then []
  else
    (split text).enum.map fun p =>
      { content := p.2
        metadata :=
          { doc_meta := doc_meta
            page_number := page_number
            chunk_id := p.1
            chunk_size := p.2.length
            sect := detect p.2
            global_chunk_id := none } }

/-- The inner stamping loop of `process_documents` (lines 85-87): assigns
the running global counter to each chunk in order and advances it. -/
def stamp_global_ids : List Chunk → Nat → List Chunk × Nat
  | [], gid => ([], gid)
  | c :: cs, gid =>
    let rest := stamp_global_ids cs (gid + 1)
    ({ c with metadata := { c.metadata with global_chunk_id := some gid } }
        :: rest.1,
      rest.2)

/-- The page loop of `process_documents` (lines 78-89) for one document:
chunk every page, stamp the global ids, extend the accumulated list. -/
def process_pages (split : String → List String)
    (detect : String → Option String) (doc_meta : DocMetadata)
    (pages : List PageData) (acc : List Chunk × Nat) : List Chunk × Nat :=
  pages.foldl
    (fun acc page =>
      let chunks := chunk_text split detect page.content doc_meta
        page.page_number
      let stamped := stamp_global_ids chunks acc.2
      (acc.1 ++ stamped.1, stamped.2))
    acc

/-- `process_documents(documents)` (lines 72-96): a single global counter
starting at 0 runs across all documents and pages of one load call. -/
def process_documents (split : String → List String)
    (detect : String → Option String) (documents : List DocumentData) :
    List Chunk :=
  (documents.foldl
    (fun acc doc => process_pages split detect doc.metadata doc.pages acc)
    ([], 0)).1

/-! ## Chat history and conversation window (`RAGChatbot`,
rag/chatbot.py lines 68-81 and 171-182) -/

/-- One recorded question/answer exchange. -/
structure Exchange where
  timestamp : String
  human : String
  assistant : String
  sources : List ChunkMetadata
  deriving Repr, DecidableEq, Inhabited

/-- `MAX_CHAT_HISTORY` (config.py, line 25). -/
def MAX_CHAT_HISTORY : Nat := 10

/-- Python `l[-k:]` for `k ≥ 0`: the last `k` elements, the whole list
when `k = 0` (since `l[-0:] = l[0:]`) or when `k` exceeds the length. -/
def pyTakeLast {α : Type} (l : List α) (k : Nat) : List α :=
  if k = 0 then l else l.drop (l.length - k)

/-- The exchange built by `_update_chat_history` (lines 172-177); the
timestamp comes from the wall clock, passed in explicitly. -/
def mk_exchange (ts user_message assistant_response : String)
    (relevant_docs : List SearchDoc) : Exchange :=
  { timestamp := ts
    human := user_message
    assistant := assistant_response
    sources := relevant_docs.map (fun d => d.metadata) }

/-- `_update_chat_history` (lines 171-182): append the exchange, then if
the length exceeds `MAX_CHAT_HISTORY` keep only the last
`MAX_CHAT_HISTORY` entries. -/
def update_chat_history (history : List Exchange)
    (ts user_message assistant_response : String)
    (relevant_docs : List SearchDoc) : List Exchange :=
  let history' := history ++
    [mk_exchange ts user_message assistant_response relevant_docs]
  if MAX_CHAT_HISTORY < history'.length then pyTakeLast history' MAX_CHAT_HISTORY
  else history'

/-- One chat turn to be appended: timestamp, user message, assistant
response and the retrieved documents. -/
abbrev Turn := String × String × String × List SearchDoc

/-- A sequence of `_update_chat_history` calls folded over a history. -/
def append_exchanges (history : List Exchange) (turns : List Turn) :
    List Exchange :=
  turns.foldl
    (fun h t => update_chat_history h t.1 t.2.1 t.2.2.1 t.2.2.2) history

/-- The exchange a turn produces. -/
def turn_exchange (t : Turn) : Exchange :=
  mk_exchange t.1 t.2.1 t.2.2.1 t.2.2.2

/-- `_build_conversation_context(current_query, window_size=3)` (lines
68-81): the rendered window over the last `window_size` exchanges. -/
def build_conversation_context (history : List Exchange)
    (current_query : String) (window_size : Nat) : String :=
  if history = [] then current_query
  else
    let recent_exchanges := pyTakeLast history window_size
    let context_parts := recent_exchanges.foldr
      (fun e acc => ("User: " ++ e.human) :: ("Assistant: " ++ e.assistant)
        :: acc) []
    String.intercalate "\n"
      (context_parts ++ ["Current Question: " ++ current_query])

/-! ## The chat pipeline (`RAGChatbot.chat` and `RAGChatbot.stream_chat`,
rag/chatbot.py lines 83-169) -/

/-- One entry of the `context` list handed to the generation provider
(chatbot.py, lines 103-110). -/
structure ContextItem where
  content : String
  metadata : ChunkMetadata
  deriving Repr, DecidableEq, Inhabited

/-- The parameter names of `OllamaLLM.generate_response` (llm.py, line
33): `(self, prompt, context=None, chat_history=None)`. -/
def generate_response_params : List String :=
  ["prompt", "context", "chat_history"]

/-- The keyword arguments `RAGChatbot.chat` passes to `generate_response`
(chatbot.py, lines 112-117). -/
def chat_generate_kwargs : List String :=
  ["prompt", "context", "chat_history", "conversation_context"]

/-- Python keyword binding: a call raises `TypeError` unless every keyword
argument names a parameter of the callee. -/
def kwargs_bind_ok (params kwargs : List String) : Bool :=
  kwargs.all (fun k => params.contains k)

/-- The chatbot and its external collaborators.  `embed_text` models
`EmbeddingManager.embed_text` (which can raise); `generate` models a
successfully bound `generate_response` call, i.e. the Ollama round trip of
llm.py lines 33-66 (that function catches its own network errors and
returns a string, but the oracle may still raise); `stream` models
`OllamaLLM.stream_response` (llm.py, lines 129-167), which catches every
exception internally and therefore always yields a plain chunk list;
`now` is the wall clock reading used for the exchange timestamp.

`reranker` mirrors `self.reranker`: the outer `Option` is
`if ENABLE_RERANKER else None` (a configuration value modelled from the
spec, since config.py under src/ does not define `ENABLE_RERANKER`), the
inner `Option` is the `Reranker.model` left as `None` when loading
failed. -/
structure ChatEnv where
  now : String
  embed_text : String → Except String (List ℚ)
  retriever : RetrieverEnv
  reranker : Option (Option RerankerModel)
  generate : String → List ContextItem → List Exchange → Except String String
  stream : String → List ContextItem → List Exchange → String → List String

/-- The fixed rejection message of an uninitialized chatbot
(chatbot.py, line 86). -/
def not_initialized_message : String :=
  "Please load documents first before asking questions."

/-- The fixed message `chat` returns when its body raises
(chatbot.py, line 125). -/
def chat_error_message : String :=
  "Sorry, I encountered an error while processing your question."

/-- The chatbot state observed by the chat entry points. -/
structure ChatbotState where
  is_initialized : Bool
  chat_history : List Exchange
  deriving Repr, DecidableEq, Inhabited

/-- The retrieval-and-rerank stage shared by `chat` and `stream_chat`
(chatbot.py, lines 90-100 and 135-145): hybrid search with `2 * top_k`
candidates, then either a rerank (when the reranker exists and is
available) or a plain `[:top_k]` cut. -/
def retrieve_and_rerank (env : ChatEnv) (user_message : String)
    (query_embedding : List ℚ) (top_k : Nat) : List SearchDoc :=
  let relevant_docs := search env.retriever query_embedding
    (some user_message) (top_k * 2) env.retriever.hybrid_enabled
  match env.reranker with
  | some (some m) => rerank (some m) user_message relevant_docs top_k
  | _ => relevant_docs.take top_k

/-- The try-block body of `chat` (chatbot.py, lines 88-121) after the
initialization check: build the window, embed, retrieve, rerank, prepare
the context and call the generation provider.  The call at lines 112-117
passes the keyword argument `conversation_context`, which
`generate_response` does not declare, so Python keyword binding raises
`TypeError` before the provider is ever reached; the model keeps that
binding check explicit. -/
def chat_body (env : ChatEnv) (st : ChatbotState) (user_message : String)
    (top_k : Nat) : Except String (String × List Exchange) :=
  let _conversation_context :=
    build_conversation_context st.chat_history user_message 3
  match env.embed_text user_message with
  | .error e => .error e
  | .ok query_embedding =>
    let relevant_docs := retrieve_and_rerank env user_message query_embedding
      top_k
    let context := relevant_docs.map
      (fun d => ContextItem.mk d.content d.metadata)
    if kwargs_bind_ok generate_response_params chat_generate_kwargs then
      match env.generate user_message context st.chat_history with
      | .error e => .error e
      | .ok response =>
        .ok (response,
          update_chat_history st.chat_history env.now user_message response
            relevant_docs)
    else
      .error "TypeError: generate_response() got an unexpected keyword argument"

/-- `chat(user_message, top_k=5)` (chatbot.py, lines 83-125): rejects when
not initialized, otherwise runs the body and maps any raise to the fixed
error message, leaving the history untouched.  Returns the response and
the resulting chat history. -/
def chat (env : ChatEnv) (st : ChatbotState) (user_message : String)
    (top_k : Nat) : String × List Exchange :=
  if st.is_initialized = false then (not_initialized_message, st.chat_history)
  else
    match chat_body env st user_message top_k with
    | .ok r => r
    | .error _ => (chat_error_message, st.chat_history)

/-- `stream_chat(user_message, top_k=5)` (chatbot.py, lines 127-169):
same pipeline, but the generation step yields increments
(`stream_response` accepts `conversation_context`, so no binding error
here).  The only raising step before the first yield is the embedding
call; a raise is caught and the final yielded increment becomes
`"Error: ..."`.  Returns the yielded increments and the resulting chat
history. -/
def stream_chat (env : ChatEnv) (st : ChatbotState) (user_message : String)
    (top_k : Nat) : List String × List Exchange :=
  if st.is_initialized = false then
    ([not_initialized_message], st.chat_history)
  else
    let conversation_context :=
      build_conversation_context st.chat_history user_message 3
    match env.embed_text user_message with
    | .error e => (["Error: " ++ e], st.chat_history)
    | .ok query_embedding =>
      let relevant_docs := retrieve_and_rerank env user_message
        query_embedding top_k
      let context := relevant_docs.map
        (fun d => ContextItem.mk d.content d.metadata)
      let chunks := env.stream user_message context st.chat_history
        conversation_context
      let full_response := String.join chunks
      (chunks,
        update_chat_history st.chat_history env.now user_message
          full_response relevant_docs)

/-! ## Specification-side lexical retrieval

A reference rendering of the spec text (section 4.2, hybrid step 2) for
the lexical-candidates refinement claim, to be compared with the code
path `format_search_results ∘ keyword_search_core` above. -/

/-- The lexical candidate list of a chunk corpus, per the spec words:
extract up to 5 keywords from the query text; scan the corpus for chunks
containing at least one keyword; score each matching chunk by the count of
distinct matched keywords; keep the top `n` by that count, ties broken by
original corpus order (stable). -/
def spec_lexical_candidates (corpus : List (String × ChunkMetadata))
    (query_text : String) (n : Nat) : List (String × ChunkMetadata) :=
  let keywords := extract_keywords query_text
  let matching := corpus.filter
    (fun c => keywords.any (fun kw => contains_keyword c.1 kw))
  let scored := matching.map
    (fun c =>
      ((keywords.dedup.filter (fun kw => contains_keyword c.1 kw)).length, c))
  ((scored.mergeSort (fun a b => b.1 ≤ a.1)).take n).map (fun s => s.2)

/-- The lexical candidate list with the score the code actually uses:
the number of matched entries of the extracted keyword list, counted with
multiplicity (a query token repeated among the first five counts once per
repetition). -/
def amended_lexical_candidates (corpus : List (String × ChunkMetadata))
    (query_text : String) (n : Nat) : List (String × ChunkMetadata) :=
  let keywords := extract_keywords query_text
  let matching := corpus.filter
    (fun c => keywords.any (fun kw => contains_keyword c.1 kw))
  let scored := matching.map
    (fun c => ((keywords.filter (fun kw => contains_keyword c.1 kw)).length, c))
  ((scored.mergeSort (fun a b => b.1 ≤ a.1)).take n).map (fun s => s.2)

/-- The code-side lexical candidate list: the formatted output of
`_keyword_search` on a successfully fetched snapshot, reduced to its
content/metadata pairs. -/
def code_lexical_candidates (all_docs : CorpusSnapshot) (query_text : String)
    (n : Nat) : List (String × ChunkMetadata) :=
  (format_search_results (keyword_search_core all_docs query_text n)).map
    (fun d => (d.content, d.metadata))

/-! ## Concrete inputs used by witnesses and counterexamples -/

/-- Sample stored metadata. -/
def meta0 : ChunkMetadata :=
  { filename := "f", global_chunk_id := "0", page_number := "1" }

/-- Sample stored metadata, distinct id. -/
def meta1 : ChunkMetadata :=
  { filename := "f", global_chunk_id := "1", page_number := "1" }

/-- A two-chunk corpus snapshot. -/
def sample_snapshot : CorpusSnapshot :=
  { documents := ["cat here", "dog mouse here"], metadatas := [meta0, meta1] }

/-- The semantic candidate of the spec fusion scenario: distance 0.2. -/
def scenario_semantic_doc : SearchDoc :=
  { content := "x", metadata := meta0, distance := some (1 / 5) }

/-- The lexical candidate of the spec fusion scenario: same identity key,
distance 0.0 as produced by `_keyword_search`. -/
def scenario_keyword_doc : SearchDoc :=
  { content := "x", metadata := meta0, distance := some 0 }

/-- Fused candidate with semantic distance 0.1. -/
def mono_doc_a : SearchDoc :=
  { content := "a", metadata := meta0, distance := some (1 / 10) }

/-- Fused candidate with semantic distance 0.2. -/
def mono_doc_b : SearchDoc :=
  { content := "b", metadata := meta1, distance := some (2 / 10) }

/-- A retriever whose external index query raises while the corpus
snapshot is available. -/
def broken_index_env : RetrieverEnv :=
  { query := fun _ _ => .error "index down"
    get_snapshot := .ok sample_snapshot
    hybrid_enabled := true
    alpha := 1 / 2 }

/-- A one-hit semantic query answer. -/
def one_hit_results : QueryResults :=
  { documents := [["cat here"]]
    metadatas := [[meta0]]
    distances := [[1 / 5]] }

/-- A retriever whose snapshot fetch raises while the index query
answers with one semantic hit. -/
def broken_snapshot_env : RetrieverEnv :=
  { query := fun _ _ => .ok one_hit_results
    get_snapshot := .error "snapshot down"
    hybrid_enabled := true
    alpha := 1 / 2 }

/-- A cross-encoder whose scoring call raises. -/
def failing_scorer : RerankerModel :=
  { predict := fun _ => .error "scorer down" }

/-- A chatbot whose embedding call raises. -/
def broken_embed_env : ChatEnv :=
  { now := "t0"
    embed_text := fun _ => .error "boom"
    retriever := broken_index_env
    reranker := none
    generate := fun _ _ _ => .ok "answer"
    stream := fun _ _ _ _ => ["answer"] }

/-- A chatbot whose collaborators all answer. -/
def healthy_env : ChatEnv :=
  { now := "t0"
    embed_text := fun _ => .ok [1]
    retriever := broken_snapshot_env
    reranker := none
    generate := fun _ _ _ => .ok "answer"
    stream := fun _ _ _ _ => ["answer"] }

/-- A state on which no load has succeeded. -/
def fresh_state : ChatbotState := { is_initialized := false, chat_history := [] }

/-- A state after a successful load. -/
def ready_state : ChatbotState := { is_initialized := true, chat_history := [] }

/-- Eleven identical chat turns. -/
def witness_turns : List Turn := List.replicate 11 ("t", "q", "a", [])

/-- A query whose first five extracted keywords repeat a token
("cat" three times). -/
def dup_query : String := "cat cat cat dog mouse"

/-! ## Theorems -/

unseal List.merge List.mergeSort

/-- Claim C6: whenever the external pairwise scorer is unavailable (its
model failed to load) or raises at call time, `rerank(query, candidates,
top_k)` returns exactly the first `min(top_k, len(candidates))` elements
of `candidates`, in their original order and unmodified. -/
theorem rerank_fallback (model : Option RerankerModel) (query : String)
    (documents : List SearchDoc) (top_k : Nat)
    (h : model = none ∨ ∃ m e, model = some m ∧
      m.predict (documents.map (fun d => (query, d.content))) = .error e) :
    rerank model query documents top_k = documents.take top_k ∧
    (rerank model query documents top_k).length = min top_k documents.length := by
  have hr : rerank model query documents top_k = documents.take top_k := by
    rcases h with h | ⟨m, e, hm, hp⟩
    · simp [rerank, h]
    · subst hm
      by_cases hd : documents = []
      · simp [rerank, hd]
      · simp [rerank, hd, hp]
  exact ⟨hr, by simp [hr, List.length_take]⟩

/-- Witness for C6: the failing scorer on a two-element candidate list
with `top_k = 1` returns the first candidate only. -/
theorem rerank_fallback_witness :
    rerank (some failing_scorer) "q" [mono_doc_a, mono_doc_b] 1 =
      [mono_doc_a, mono_doc_b].take 1 ∧
    (rerank (some failing_scorer) "q" [mono_doc_a, mono_doc_b] 1).length =
      min 1 2 :=
  rerank_fallback (some failing_scorer) "q" [mono_doc_a, mono_doc_b] 1
    (Or.inr ⟨failing_scorer, "scorer down", rfl, rfl⟩)

/-- Claim C8: on a chatbot on which no load has succeeded, `chat` returns
the fixed "please load documents first" message and leaves the (empty)
chat history at length 0, for every message and `top_k`. -/
theorem chat_rejects_uninitialized (env : ChatEnv) (st : ChatbotState)
    (user_message : String) (top_k : Nat)
    (h1 : st.is_initialized = false) (h2 : st.chat_history = []) :
    (chat env st user_message top_k).1 = not_initialized_message ∧
    (chat env st user_message top_k).2.length = 0 := by
  simp [chat, h1, h2]

/-- Witness for C8: a concrete never-loaded chatbot. -/
theorem chat_rejects_uninitialized_witness :
    (chat broken_embed_env fresh_state "hello" 5).1 =
      not_initialized_message ∧
    (chat broken_embed_env fresh_state "hello" 5).2.length = 0 :=
  chat_rejects_uninitialized broken_embed_env fresh_state "hello" 5 rfl rfl

/-- The keyword binding of the `generate_response` call inside `chat`
fails: the call site passes `conversation_context`, which the callee does
not declare. -/
theorem chat_generate_binding_fails :
    kwargs_bind_ok generate_response_params chat_generate_kwargs = false := by
  decide

/-- The try-block body of `chat` raises on every initialized run: either
the embedding call raises first, or the `generate_response` call raises
`TypeError` on keyword binding. -/
theorem chat_body_raises (env : ChatEnv) (st : ChatbotState)
    (user_message : String) (top_k : Nat) :
    ∃ e, chat_body env st user_message top_k = .error e := by
  unfold chat_body
  cases hemb : env.embed_text user_message with
  | error e => exact ⟨e, by simp⟩
  | ok v =>
    exact ⟨"TypeError: generate_response() got an unexpected keyword argument",
      by simp [chat_generate_binding_fails]⟩

/-- Claim C1 (failing behavior): on every initialized chatbot, `chat`
returns the fixed internal-error string and appends nothing to the chat
history, because the `generate_response` call raises `TypeError`
(chatbot.py lines 112-117 pass `conversation_context=`, which
`generate_response` at llm.py line 33 does not accept) — so the pipeline
never reaches external generation nor the history append the claim
describes. -/
theorem chat_typeerror_no_append (env : ChatEnv) (st : ChatbotState)
    (user_message : String) (top_k : Nat)
    (h : st.is_initialized = true) :
    chat env st user_message top_k = (chat_error_message, st.chat_history) := by
  obtain ⟨e, he⟩ := chat_body_raises env st user_message top_k
  simp [chat, h, he]

/-- Witness for C1: a concrete initialized chatbot whose collaborators
all answer still yields the fixed error string and an unchanged (empty)
history. -/
theorem chat_typeerror_no_append_witness :
    chat healthy_env ready_state "hello" 5 =
      (chat_error_message, ready_state.chat_history) :=
  chat_typeerror_no_append healthy_env ready_state "hello" 5 rfl

/-- Claim C10: `chat` never propagates an exception — any raise of its
body after initialization is caught and mapped to the fixed error string
with the history untouched — and `stream_chat` converts a raise into a
final yielded "Error: ..." increment instead of raising, also leaving the
history untouched. -/
theorem chat_error_containment (env : ChatEnv) (st : ChatbotState)
    (user_message : String) (top_k : Nat) (err e : String)
    (hinit : st.is_initialized = true) :
    (chat_body env st user_message top_k = .error err →
      chat env st user_message top_k = (chat_error_message, st.chat_history)) ∧
    (env.embed_text user_message = .error e →
      (stream_chat env st user_message top_k).1.getLast? =
        some ("Error: " ++ e) ∧
      (stream_chat env st user_message top_k).2 = st.chat_history) := by
  constructor
  · intro hbody
    simp [chat, hinit, hbody]
  · intro hemb
    simp [stream_chat, hinit, hemb]

/-- Witness for C10: a concrete initialized chatbot whose embedding call
raises "boom". -/
theorem chat_error_containment_witness :
    chat broken_embed_env ready_state "hello" 5 =
      (chat_error_message, ready_state.chat_history) ∧
    (stream_chat broken_embed_env ready_state "hello" 5).1.getLast? =
      some ("Error: " ++ "boom") ∧
    (stream_chat broken_embed_env ready_state "hello" 5).2 =
      ready_state.chat_history := by
  have h := chat_error_containment broken_embed_env ready_state "hello" 5
    "boom" "boom" rfl
  exact ⟨h.1 rfl, h.2 rfl⟩

/-- One `_update_chat_history` call keeps the bound: starting from a
history within the bound, the result is the last `MAX_CHAT_HISTORY`
entries of the appended list. -/
theorem update_chat_history_eq_drop (history : List Exchange) (t : Turn) :
    update_chat_history history t.1 t.2.1 t.2.2.1 t.2.2.2 =
      (history ++ [turn_exchange t]).drop
        ((history ++ [turn_exchange t]).length - MAX_CHAT_HISTORY) := by
  have he : turn_exchange t = mk_exchange t.1 t.2.1 t.2.2.1 t.2.2.2 := rfl
  rw [he]
  simp only [update_chat_history]
  set A := history ++ [mk_exchange t.1 t.2.1 t.2.2.1 t.2.2.2] with hA
  have hAlen : A.length = history.length + 1 := by simp [hA]
  by_cases hgt : MAX_CHAT_HISTORY < A.length
  · rw [if_pos hgt]
    unfold pyTakeLast
    rw [if_neg (by decide : ¬ MAX_CHAT_HISTORY = 0)]
  · rw [if_neg hgt]
    have h0 : A.length - MAX_CHAT_HISTORY = 0 := by omega
    rw [h0, List.drop_zero]

/-- Folding `_update_chat_history` over a list of turns from any history
within the bound yields the last `MAX_CHAT_HISTORY` entries of the full
appended sequence. -/
theorem append_exchanges_eq_drop (turns : List Turn) :
    ∀ history : List Exchange, history.length ≤ MAX_CHAT_HISTORY →
    append_exchanges history turns =
      (history ++ turns.map turn_exchange).drop
        ((history ++ turns.map turn_exchange).length - MAX_CHAT_HISTORY) := by
  induction turns with
  | nil =>
    intro history hh
    have h0 : history.length - MAX_CHAT_HISTORY = 0 := by omega
    simp [append_exchanges, h0]
  | cons t ts ih =>
    intro history hh
    have hstep : append_exchanges history (t :: ts) =
        append_exchanges (update_chat_history history t.1 t.2.1 t.2.2.1
          t.2.2.2) ts := by
      simp [append_exchanges]
    rw [hstep, update_chat_history_eq_drop history t]
    set e := turn_exchange t with he
    set A := history ++ [e] with hA
    have hAlen : A.length = history.length + 1 := by simp [hA]
    have hk : A.length - MAX_CHAT_HISTORY ≤ A.length := Nat.sub_le _ _
    have hlen' : (A.drop (A.length - MAX_CHAT_HISTORY)).length ≤
        MAX_CHAT_HISTORY := by
      simp [List.length_drop]
      omega
    rw [ih _ hlen']
    have hsplit : A.drop (A.length - MAX_CHAT_HISTORY) ++
        ts.map turn_exchange =
        (A ++ ts.map turn_exchange).drop (A.length - MAX_CHAT_HISTORY) := by
      rw [List.drop_append_of_le_length hk]
    rw [hsplit, List.drop_drop]
    have harr : history ++ (t :: ts).map turn_exchange =
        A ++ ts.map turn_exchange := by
      simp [hA, he]
    rw [harr]
    congr 1
    have : (A ++ ts.map turn_exchange).length =
        A.length + ts.length := by simp
    simp [List.length_drop, this]
    omega

/-- Claim C7: after more than `MAX_CHAT_HISTORY` appends to an empty chat
history, the history holds exactly the last `MAX_CHAT_HISTORY` appended
exchanges, in append order, and has length exactly `MAX_CHAT_HISTORY`. -/
theorem chat_history_bound (turns : List Turn)
    (h : turns.length > MAX_CHAT_HISTORY) :
    append_exchanges [] turns =
      (turns.map turn_exchange).drop (turns.length - MAX_CHAT_HISTORY) ∧
    (append_exchanges [] turns).length = MAX_CHAT_HISTORY := by
  have hmain := append_exchanges_eq_drop turns [] (by simp [MAX_CHAT_HISTORY])
  simp only [List.nil_append] at hmain
  have hlenmap : (turns.map turn_exchange).length = turns.length := by simp
  rw [hlenmap] at hmain
  refine ⟨hmain, ?_⟩
  rw [hmain]
  simp [List.length_drop]
  omega

/-- Witness for C7: eleven appends retain the last ten exchanges. -/
theorem chat_history_bound_witness :
    witness_turns.length > MAX_CHAT_HISTORY ∧
    (append_exchanges [] witness_turns =
      (witness_turns.map turn_exchange).drop
        (witness_turns.length - MAX_CHAT_HISTORY) ∧
    (append_exchanges [] witness_turns).length = MAX_CHAT_HISTORY) :=
  ⟨by decide, chat_history_bound witness_turns (by decide)⟩

/-- The stamping loop assigns the ids `gid, gid+1, ...` in chunk order and
advances the counter by the number of chunks. -/
theorem stamp_global_ids_spec (cs : List Chunk) (gid : Nat) :
    (stamp_global_ids cs gid).1.map (fun c => c.metadata.global_chunk_id) =
      (List.range' gid cs.length).map some ∧
    (stamp_global_ids cs gid).2 = gid + cs.length := by
  induction cs generalizing gid with
  | nil => simp [stamp_global_ids]
  | cons c cs ih =>
    have h1 := (ih (gid + 1)).1
    have h2 := (ih (gid + 1)).2
    refine ⟨?_, ?_⟩
    · simp [stamp_global_ids, h1, List.range'_succ]
    · simp [stamp_global_ids, h2]
      omega

/-- The invariant carried by the chunk accumulator: the collected chunks
carry exactly the ids `0, ..., counter-1` in order. -/
def IdsInv (acc : List Chunk × Nat) : Prop :=
  acc.1.map (fun c => c.metadata.global_chunk_id) =
    (List.range' 0 acc.2).map some

/-- The page loop preserves the accumulator invariant. -/
theorem process_pages_inv (split : String → List String)
    (detect : String → Option String) (dm : DocMetadata)
    (pages : List PageData) :
    ∀ acc : List Chunk × Nat, IdsInv acc →
      IdsInv (process_pages split detect dm pages acc) := by
  induction pages with
  | nil => intro acc h; simpa [process_pages] using h
  | cons p ps ih =>
    intro acc h
    have hstep : process_pages split detect dm (p :: ps) acc =
        process_pages split detect dm ps
          (let chunks := chunk_text split detect p.content dm p.page_number
           let stamped := stamp_global_ids chunks acc.2
           (acc.1 ++ stamped.1, stamped.2)) := by
      simp [process_pages]
    rw [hstep]
    apply ih
    set chunks := chunk_text split detect p.content dm p.page_number
    have hs := stamp_global_ids_spec chunks acc.2
    unfold IdsInv at h ⊢
    simp only [List.map_append, h, hs.1, hs.2]
    rw [← List.map_append]
    have : List.range' 0 acc.2 ++ List.range' acc.2 chunks.length =
        List.range' 0 (acc.2 + chunks.length) := by
      have h2 := List.range'_append 0 acc.2 chunks.length 1
      rw [Nat.add_comm acc.2 chunks.length]
      simpa using h2
    rw [this]

/-- The document loop preserves the accumulator invariant. -/
theorem process_documents_inv (split : String → List String)
    (detect : String → Option String) (documents : List DocumentData) :
    ∀ acc : List Chunk × Nat, IdsInv acc →
      IdsInv (documents.foldl
        (fun acc doc => process_pages split detect doc.metadata doc.pages acc)
        acc) := by
  induction documents with
  | nil => intro acc h; simpa using h
  | cons d ds ih =>
    intro acc h
    simp only [List.foldl_cons]
    exact ih _ (process_pages_inv split detect d.metadata d.pages acc h)

/-- Claim C9: within one load call over any document sequence, the
`global_chunk_id` values stamped on the produced chunks are exactly
`0, 1, 2, ...` in ingestion order (documents, then pages, then chunks) —
in particular pairwise distinct and assigned consecutively from 0. -/
theorem global_chunk_ids_consecutive (split : String → List String)
    (detect : String → Option String) (documents : List DocumentData) :
    (process_documents split detect documents).map
        (fun c => c.metadata.global_chunk_id) =
      (List.range (process_documents split detect documents).length).map
        some := by
  have hinv := process_documents_inv split detect documents ([], 0)
    (by simp [IdsInv])
  unfold IdsInv at hinv
  unfold process_documents
  set res := documents.foldl
    (fun acc doc => process_pages split detect doc.metadata doc.pages acc)
    ([], 0) with hres
  have hlen : res.1.length = res.2 := by
    have := congrArg List.length hinv
    simpa using this
  rw [hinv, hlen, List.range_eq_range']

/-- Inserting a key makes it found with the inserted value. -/
theorem dict_find_insert_self (k : String) (v : SearchDoc × ℚ)
    (l : FusedDict) : dict_find k (dict_insert k v l) = some v := by
  induction l with
  | nil => simp [dict_insert, dict_find]
  | cons e rest ih =>
    by_cases h : e.1 = k
    · simp [dict_insert, dict_find, h]
    · simp [dict_insert, dict_find, h, ih]

/-- Inserting one key leaves every other key unchanged. -/
theorem dict_find_insert_ne (k k' : String) (v : SearchDoc × ℚ)
    (l : FusedDict) (h : k' ≠ k) :
    dict_find k' (dict_insert k v l) = dict_find k' l := by
  have hks : ¬ (k = k') := fun hh => h hh.symm
  induction l with
  | nil => simp [dict_insert, dict_find, hks]
  | cons e rest ih =>
    by_cases he : e.1 = k
    · simp [dict_insert, dict_find, he, hks]
    · by_cases he' : e.1 = k'
      · simp [dict_insert, dict_find, he, he', h]
      · simp [dict_insert, dict_find, he, he', ih]

/-- Adding a score increment to a key updates its value in place, or
appends a fresh binding when the key is absent. -/
theorem dict_find_add_self (k : String) (d : SearchDoc) (inc : ℚ)
    (l : FusedDict) :
    dict_find k (dict_add_score k d inc l) =
      match dict_find k l with
      | some v => some (v.1, v.2 + inc)
      | none => some (d, inc) := by
  induction l with
  | nil => simp [dict_add_score, dict_find]
  | cons e rest ih =>
    by_cases h : e.1 = k
    · simp [dict_add_score, dict_find, h]
    · simp [dict_add_score, dict_find, h, ih]

/-- Adding a score increment to one key leaves every other key
unchanged. -/
theorem dict_find_add_ne (k k' : String) (d : SearchDoc) (inc : ℚ)
    (l : FusedDict) (h : k' ≠ k) :
    dict_find k' (dict_add_score k d inc l) = dict_find k' l := by
  have hks : ¬ (k = k') := fun hh => h hh.symm
  induction l with
  | nil => simp [dict_add_score, dict_find, hks]
  | cons e rest ih =>
    by_cases he : e.1 = k
    · simp [dict_add_score, dict_find, he, hks]
    · by_cases he' : e.1 = k'
      · simp [dict_add_score, dict_find, he, he', h]
      · simp [dict_add_score, dict_find, he, he', ih]

/-- The key list after a dictionary insertion. -/
theorem dict_insert_keys (k : String) (v : SearchDoc × ℚ) (l : FusedDict) :
    (dict_insert k v l).map Prod.fst =
      if k ∈ l.map Prod.fst then l.map Prod.fst else l.map Prod.fst ++ [k] := by
  induction l with
  | nil => simp [dict_insert]
  | cons e rest ih =>
    by_cases h : e.1 = k
    · simp [dict_insert, h]
    · have hks : ¬ (k = e.1) := fun hh => h hh.symm
      by_cases hk : k ∈ rest.map Prod.fst
      · simp [dict_insert, h, ih, hk]
      · simp [dict_insert, h, ih, hk, List.mem_cons, hks]

/-- The key list after a score addition. -/
theorem dict_add_keys (k : String) (d : SearchDoc) (inc : ℚ)
    (l : FusedDict) :
    (dict_add_score k d inc l).map Prod.fst =
      if k ∈ l.map Prod.fst then l.map Prod.fst else l.map Prod.fst ++ [k] := by
  induction l with
  | nil => simp [dict_add_score]
  | cons e rest ih =>
    by_cases h : e.1 = k
    · simp [dict_add_score, h]
    · have hks : ¬ (k = e.1) := fun hh => h hh.symm
      by_cases hk : k ∈ rest.map Prod.fst
      · simp [dict_add_score, h, ih, hk]
      · simp [dict_add_score, h, ih, hk, List.mem_cons, hks]

/-- Appending a fresh key preserves key uniqueness. -/
theorem nodup_append_fresh (keys : List String) (k : String)
    (h : keys.Nodup) (hk : k ∉ keys) : (keys ++ [k]).Nodup := by
  rw [List.nodup_append]
  refine ⟨h, List.nodup_singleton _, ?_⟩
  intro a ha hak
  rw [List.mem_singleton] at hak
  subst hak
  exact hk ha

/-- Dictionary insertion preserves key uniqueness. -/
theorem dict_insert_keys_nodup (k : String) (v : SearchDoc × ℚ)
    (l : FusedDict) (h : (l.map Prod.fst).Nodup) :
    ((dict_insert k v l).map Prod.fst).Nodup := by
  rw [dict_insert_keys]
  by_cases hk : k ∈ l.map Prod.fst
  · simpa [hk] using h
  · simp only [hk, if_false]
    exact nodup_append_fresh _ _ h hk

/-- Score addition preserves key uniqueness. -/
theorem dict_add_keys_nodup (k : String) (d : SearchDoc) (inc : ℚ)
    (l : FusedDict) (h : (l.map Prod.fst).Nodup) :
    ((dict_add_score k d inc l).map Prod.fst).Nodup := by
  rw [dict_add_keys]
  by_cases hk : k ∈ l.map Prod.fst
  · simpa [hk] using h
  · simp only [hk, if_false]
    exact nodup_append_fresh _ _ h hk

/-- A found key is a member of the key list. -/
theorem dict_find_some_mem (k : String) (l : FusedDict) (v : SearchDoc × ℚ)
    (h : dict_find k l = some v) : k ∈ l.map Prod.fst := by
  induction l with
  | nil => simp [dict_find] at h
  | cons e rest ih =>
    by_cases he : e.1 = k
    · simp [he]
    · simp only [dict_find, he, if_false] at h
      simp [ih h]

/-- After the semantic loop, a key is found at the value of its last
semantic occurrence, and keys untouched by the loop keep their prior
binding. -/
theorem add_semantic_find (alpha : ℚ) (docs : List SearchDoc) :
    ∀ (acc : FusedDict) (K : String),
    dict_find K (add_semantic alpha acc docs) =
      match (docs.filter (fun x => doc_key x == K)).getLast? with
      | some d => some (d, alpha * (1 - dist_value d))
      | none => dict_find K acc := by
  induction docs with
  | nil => intro acc K; simp [add_semantic]
  | cons d ds ih =>
    intro acc K
    have hstep : add_semantic alpha acc (d :: ds) =
        add_semantic alpha
          (dict_insert (doc_key d) (d, alpha * (1 - dist_value d)) acc) ds := by
      simp [add_semantic]
    rw [hstep, ih]
    by_cases hk : doc_key d = K
    · cases hf : ds.filter (fun x => doc_key x == K) with
      | nil =>
        simp [hf, List.filter_cons, hk, dict_find_insert_self]
      | cons x xs =>
        cases hl : (x :: xs).getLast? with
        | none => simp at hl
        | some y => simp [hf, List.filter_cons, hk, hl]
    · have hne : (doc_key d == K) = false := by
        simp [hk]
      cases hf : ds.filter (fun x => doc_key x == K) with
      | nil =>
        simp [hf, List.filter_cons, hne,
          dict_find_insert_ne (doc_key d) K _ acc (fun h => hk h.symm)]
      | cons x xs =>
        cases hl : (x :: xs).getLast? with
        | none => simp at hl
        | some y => simp [hf, List.filter_cons, hne, hl]

/-- The keyword loop does not touch keys outside the keyword list. -/
theorem add_keyword_find_not_mem (alpha : ℚ) (docs : List SearchDoc) :
    ∀ (acc : FusedDict) (K : String), K ∉ docs.map doc_key →
    dict_find K (add_keyword alpha acc docs) = dict_find K acc := by
  induction docs with
  | nil => intro acc K _; simp [add_keyword]
  | cons d ds ih =>
    intro acc K hK
    have hstep : add_keyword alpha acc (d :: ds) =
        add_keyword alpha
          (dict_add_score (doc_key d) d ((1 - alpha) * (4 / 5)) acc) ds := by
      simp [add_keyword]
    have hne : K ≠ doc_key d := by
      intro h; exact hK (by simp [h])
    have hK' : K ∉ ds.map doc_key := by
      intro h; exact hK (by simp [h])
    rw [hstep, ih _ _ hK', dict_find_add_ne _ _ _ _ _ hne]

/-- A key occurring exactly once in the keyword list gains exactly one
lexical contribution on top of its prior binding. -/
theorem add_keyword_find_once (alpha : ℚ) (docs : List SearchDoc) :
    ∀ (acc : FusedDict) (K : String) (d0 : SearchDoc) (s0 : ℚ),
    docs.countP (fun x => doc_key x == K) = 1 →
    dict_find K acc = some (d0, s0) →
    dict_find K (add_keyword alpha acc docs) =
      some (d0, s0 + (1 - alpha) * (4 / 5)) := by
  induction docs with
  | nil => intro acc K d0 s0 hc _; simp [List.countP_nil] at hc
  | cons d ds ih =>
    intro acc K d0 s0 hc hacc
    have hstep : add_keyword alpha acc (d :: ds) =
        add_keyword alpha
          (dict_add_score (doc_key d) d ((1 - alpha) * (4 / 5)) acc) ds := by
      simp [add_keyword]
    rw [hstep]
    by_cases hk : doc_key d = K
    · have hall : ∀ a ∈ ds, ¬ doc_key a = K := by
        have h2 := hc
        rw [List.countP_cons] at h2
        simp [hk, List.countP_eq_zero] at h2
        exact h2
      have hnot : K ∉ ds.map doc_key := by
        intro hmem
        obtain ⟨x, hx, hxk⟩ := List.mem_map.mp hmem
        exact hall x hx hxk
      rw [add_keyword_find_not_mem alpha ds _ K hnot]
      rw [hk] at *
      rw [dict_find_add_self, hacc]
    · have hc1 : ds.countP (fun x => doc_key x == K) = 1 := by
        have h2 := hc
        rw [List.countP_cons] at h2
        simp only [beq_iff_eq, hk, if_false, Nat.add_zero] at h2
        exact h2
      have hfind : dict_find K
          (dict_add_score (doc_key d) d ((1 - alpha) * (4 / 5)) acc) =
          some (d0, s0) := by
        rw [dict_find_add_ne _ _ _ _ _ (fun h => hk h.symm), hacc]
      exact ih _ _ _ _ hc1 hfind

/-- The semantic loop preserves key uniqueness. -/
theorem add_semantic_keys_nodup (alpha : ℚ) (docs : List SearchDoc) :
    ∀ acc : FusedDict, (acc.map Prod.fst).Nodup →
      ((add_semantic alpha acc docs).map Prod.fst).Nodup := by
  induction docs with
  | nil => intro acc h; simpa [add_semantic] using h
  | cons d ds ih =>
    intro acc h
    have hstep : add_semantic alpha acc (d :: ds) =
        add_semantic alpha
          (dict_insert (doc_key d) (d, alpha * (1 - dist_value d)) acc) ds := by
      simp [add_semantic]
    rw [hstep]
    exact ih _ (dict_insert_keys_nodup _ _ _ h)

/-- The keyword loop preserves key uniqueness. -/
theorem add_keyword_keys_nodup (alpha : ℚ) (docs : List SearchDoc) :
    ∀ acc : FusedDict, (acc.map Prod.fst).Nodup →
      ((add_keyword alpha acc docs).map Prod.fst).Nodup := by
  induction docs with
  | nil => intro acc h; simpa [add_keyword] using h
  | cons d ds ih =>
    intro acc h
    have hstep : add_keyword alpha acc (d :: ds) =
        add_keyword alpha
          (dict_add_score (doc_key d) d ((1 - alpha) * (4 / 5)) acc) ds := by
      simp [add_keyword]
    rw [hstep]
    exact ih _ (dict_add_keys_nodup _ _ _ _ h)

/-- The fused dictionary has pairwise distinct keys. -/
theorem fused_dict_keys_nodup (alpha : ℚ)
    (semantic_docs keyword_docs : List SearchDoc) :
    ((fused_dict alpha semantic_docs keyword_docs).map Prod.fst).Nodup := by
  unfold fused_dict
  exact add_keyword_keys_nodup alpha keyword_docs _
    (add_semantic_keys_nodup alpha semantic_docs [] (by simp))

/-- A stored distance reads back as itself. -/
theorem dist_value_some (d : SearchDoc) (x : ℚ) (h : d.distance = some x) :
    dist_value d = x := by
  unfold dist_value
  rw [h]
  by_cases hx : x = 0
  · simp [hx]
  · simp [hx]

/-- A predicate holding at a member that counts exactly one match
isolates that member as the whole filtered list. -/
theorem filter_eq_singleton_of_countP_one (docs : List SearchDoc)
    (p : SearchDoc → Bool) (d : SearchDoc) (hmem : d ∈ docs)
    (hp : p d = true) (hc : docs.countP p = 1) :
    docs.filter p = [d] := by
  have hlen : (docs.filter p).length = 1 := by
    rw [← List.countP_eq_length_filter]
    exact hc
  obtain ⟨a, ha⟩ := List.length_eq_one.mp hlen
  have hd : d ∈ docs.filter p := List.mem_filter.mpr ⟨hmem, hp⟩
  rw [ha] at hd
  rw [List.mem_singleton] at hd
  rw [ha, hd]

/-- An entry list with pairwise distinct keys counts each of its keys
exactly once. -/
theorem countP_key_eq_one (l : FusedDict) (K : String)
    (hnd : (l.map Prod.fst).Nodup) (hmem : K ∈ l.map Prod.fst) :
    l.countP (fun e => e.1 == K) = 1 := by
  have h1 : l.countP (fun e => e.1 == K) =
      (l.map Prod.fst).countP (fun k => k == K) := by
    rw [List.countP_map]
    rfl
  have h2 : (l.map Prod.fst).count K = 1 :=
    List.count_eq_one_of_mem hnd hmem
  rw [h1]
  simpa [List.count] using h2

/-- The fused score of a key occurring once in the semantic list and not
at all in the lexical list is exactly the semantic contribution. -/
theorem fused_score_semantic_only (alpha : ℚ)
    (semantic_docs keyword_docs : List SearchDoc) (d : SearchDoc) (dist : ℚ)
    (hmem : d ∈ semantic_docs)
    (honce : semantic_docs.countP (fun x => doc_key x == doc_key d) = 1)
    (hkw : doc_key d ∉ keyword_docs.map doc_key)
    (hdist : d.distance = some dist) :
    fused_score alpha semantic_docs keyword_docs (doc_key d) =
      some (alpha * (1 - dist)) := by
  have hfind : dict_find (doc_key d)
      (fused_dict alpha semantic_docs keyword_docs) =
      some (d, alpha * (1 - dist)) := by
    unfold fused_dict
    rw [add_keyword_find_not_mem alpha keyword_docs _ _ hkw,
      add_semantic_find,
      filter_eq_singleton_of_countP_one semantic_docs _ d hmem (by simp)
        honce]
    simp [dist_value_some d dist hdist]
  simp [fused_score, hfind]

/-- Claim C2: a chunk whose identity key occurs (once) in both the
semantic and the lexical candidate lists occurs exactly once in the fused
ranking, with fused score the sum of the semantic contribution
`alpha * (1 - distance)` and the lexical contribution
`(1 - alpha) * 0.8`. -/
theorem hybrid_dedup_sum (alpha : ℚ)
    (semantic_docs keyword_docs : List SearchDoc) (d : SearchDoc) (dist : ℚ)
    (hmem : d ∈ semantic_docs)
    (hsem : semantic_docs.countP (fun x => doc_key x == doc_key d) = 1)
    (hkw : keyword_docs.countP (fun x => doc_key x == doc_key d) = 1)
    (hdist : d.distance = some dist) :
    (fused_ranking alpha semantic_docs keyword_docs).countP
      (fun e => e.1 == doc_key d) = 1 ∧
    dict_find (doc_key d) (fused_dict alpha semantic_docs keyword_docs) =
      some (d, alpha * (1 - dist) + (1 - alpha) * (4 / 5)) := by
  have hfilter : semantic_docs.filter (fun x => doc_key x == doc_key d) =
      [d] :=
    filter_eq_singleton_of_countP_one semantic_docs _ d hmem (by simp) hsem
  have hsemfind : dict_find (doc_key d)
      (add_semantic alpha [] semantic_docs) =
      some (d, alpha * (1 - dist)) := by
    rw [add_semantic_find, hfilter]
    simp [dist_value_some d dist hdist]
  have hfind : dict_find (doc_key d)
      (fused_dict alpha semantic_docs keyword_docs) =
      some (d, alpha * (1 - dist) + (1 - alpha) * (4 / 5)) := by
    unfold fused_dict
    exact add_keyword_find_once alpha keyword_docs _ _ _ _ hkw hsemfind
  refine ⟨?_, hfind⟩
  have hperm : List.Perm (fused_ranking alpha semantic_docs keyword_docs)
      (fused_dict alpha semantic_docs keyword_docs) := by
    unfold fused_ranking
    exact List.mergeSort_perm _ _
  rw [hperm.countP_eq]
  exact countP_key_eq_one _ _ (fused_dict_keys_nodup alpha _ _)
    (dict_find_some_mem _ _ _ hfind)

/-- Witness for C2: the spec scenario — `alpha = 0.5`, a semantic
candidate at distance 0.2 whose identity key also occurs in the lexical
list — fuses to the single entry with score exactly 0.8. -/
theorem hybrid_dedup_sum_witness :
    (fused_ranking (1 / 2) [scenario_semantic_doc]
        [scenario_keyword_doc]).countP
      (fun e => e.1 == doc_key scenario_semantic_doc) = 1 ∧
    dict_find (doc_key scenario_semantic_doc)
      (fused_dict (1 / 2) [scenario_semantic_doc] [scenario_keyword_doc]) =
      some (scenario_semantic_doc, 4 / 5) := by
  have h := hybrid_dedup_sum (1 / 2) [scenario_semantic_doc]
    [scenario_keyword_doc] scenario_semantic_doc (1 / 5)
    (by simp) (by decide) (by decide) rfl
  have harith : (1 / 2 : ℚ) * (1 - 1 / 5) + (1 - 1 / 2) * (4 / 5) = 4 / 5 := by
    norm_num
  rw [harith] at h
  exact h

/-- Claim C3 (amended): for every hybrid weight `alpha` in `(0, 1]` and
fused candidates A and B occurring (once each) in the semantic list and
not at all in the lexical list, a strictly smaller semantic distance gives
a strictly greater fused score.  (At `alpha = 0` the scores tie, see the
counterexample.) -/
theorem hybrid_fusion_monotonic (alpha : ℚ)
    (semantic_docs keyword_docs : List SearchDoc) (A B : SearchDoc)
    (dA dB : ℚ)
    (halpha0 : 0 < alpha) (halpha1 : alpha ≤ 1)
    (hA : A ∈ semantic_docs)
    (hAonce : semantic_docs.countP (fun x => doc_key x == doc_key A) = 1)
    (hB : B ∈ semantic_docs)
    (hBonce : semantic_docs.countP (fun x => doc_key x == doc_key B) = 1)
    (hAkw : doc_key A ∉ keyword_docs.map doc_key)
    (hBkw : doc_key B ∉ keyword_docs.map doc_key)
    (hdA : A.distance = some dA) (hdB : B.distance = some dB)
    (hlt : dA < dB) :
    ∃ sA sB,
      fused_score alpha semantic_docs keyword_docs (doc_key A) = some sA ∧
      fused_score alpha semantic_docs keyword_docs (doc_key B) = some sB ∧
      sB < sA := by
  refine ⟨alpha * (1 - dA), alpha * (1 - dB), ?_, ?_, ?_⟩
  · exact fused_score_semantic_only alpha semantic_docs keyword_docs A dA
      hA hAonce hAkw hdA
  · exact fused_score_semantic_only alpha semantic_docs keyword_docs B dB
      hB hBonce hBkw hdB
  · have h1 : 1 - dB < 1 - dA := by linarith
    exact mul_lt_mul_of_pos_left h1 halpha0

/-- Witness for C3 (amended): `alpha = 0.5`, distances 0.1 and 0.2, empty
lexical list. -/
theorem hybrid_fusion_monotonic_witness :
    ∃ sA sB,
      fused_score (1 / 2) [mono_doc_a, mono_doc_b] []
        (doc_key mono_doc_a) = some sA ∧
      fused_score (1 / 2) [mono_doc_a, mono_doc_b] []
        (doc_key mono_doc_b) = some sB ∧
      sB < sA :=
  hybrid_fusion_monotonic (1 / 2) [mono_doc_a, mono_doc_b] []
    mono_doc_a mono_doc_b (1 / 10) (2 / 10)
    (by norm_num) (by norm_num) (by simp) (by decide) (by simp)
    (by decide) (by decide) (by decide) rfl rfl (by norm_num)

/-- Counterexample for C3 as stated: at the hybrid weight `alpha = 0`,
which the claim admits (`alpha ∈ [0,1]`), two fused candidates with
semantic distances 0.1 < 0.2 and no lexical occurrence both receive fused
score 0, so the strict inequality fails. -/
theorem hybrid_fusion_monotonic_cex :
    (0 : ℚ) ≤ 0 ∧ (0 : ℚ) ≤ 1 ∧
    mono_doc_a ∈ [mono_doc_a, mono_doc_b] ∧
    mono_doc_b ∈ [mono_doc_a, mono_doc_b] ∧
    doc_key mono_doc_a ∉ ([] : List SearchDoc).map doc_key ∧
    doc_key mono_doc_b ∉ ([] : List SearchDoc).map doc_key ∧
    mono_doc_a.distance = some (1 / 10) ∧
    mono_doc_b.distance = some (2 / 10) ∧
    (1 / 10 : ℚ) < 2 / 10 ∧
    ¬ ∃ sA sB,
      fused_score 0 [mono_doc_a, mono_doc_b] [] (doc_key mono_doc_a) =
        some sA ∧
      fused_score 0 [mono_doc_a, mono_doc_b] [] (doc_key mono_doc_b) =
        some sB ∧
      sB < sA := by
  refine ⟨le_refl 0, by norm_num, by simp, by simp, by simp, by simp,
    rfl, rfl, by norm_num, ?_⟩
  rintro ⟨sA, sB, h1, h2, h3⟩
  have e1 : fused_score 0 [mono_doc_a, mono_doc_b] [] (doc_key mono_doc_a) =
      some 0 := by
    have h0 := fused_score_semantic_only 0 [mono_doc_a, mono_doc_b] []
      mono_doc_a (1 / 10) (by simp) (by decide) (by decide) rfl
    rw [h0]
    norm_num
  have e2 : fused_score 0 [mono_doc_a, mono_doc_b] [] (doc_key mono_doc_b) =
      some 0 := by
    have h0 := fused_score_semantic_only 0 [mono_doc_a, mono_doc_b] []
      mono_doc_b (2 / 10) (by simp) (by decide) (by decide) rfl
    rw [h0]
    norm_num
  rw [e1] at h1
  rw [e2] at h2
  have hsA : (0 : ℚ) = sA := Option.some.inj h1
  have hsB : (0 : ℚ) = sB := Option.some.inj h2
  rw [← hsA, ← hsB] at h3
  exact lt_irrefl 0 h3

/-- Claim C5 (amended): no failure escapes `search` — it always returns a
list.  A failure of the corpus-snapshot fetch during hybrid search yields
an empty lexical path only, and the search returns the fusion of the
semantic results with that empty path; a failure of the semantic index
query during hybrid search empties the entire result, discarding the
lexical path; a failure of the index query in semantic-only mode yields
the empty list. -/
theorem search_failure_containment (env : RetrieverEnv) (emb : List ℚ)
    (qt : String) (top_k : Nat) (err : String) (r : QueryResults) :
    (env.query emb (top_k * 2) = .error err → env.hybrid_enabled = true →
      qt ≠ "" → search env emb (some qt) top_k true = []) ∧
    (env.get_snapshot = .error err → env.query emb (top_k * 2) = .ok r →
      env.hybrid_enabled = true → qt ≠ "" →
      search env emb (some qt) top_k true =
        combine_results env.alpha r empty_results top_k) ∧
    (env.query emb top_k = .error err →
      search env emb (some qt) top_k false = []) := by
  refine ⟨?_, ?_, ?_⟩
  · intro hq hhy hqt
    simp [search, truthy_text, hqt, hhy, hybrid_search, hq, Except.bind]
  · intro hsnap hq hhy hqt
    simp [search, truthy_text, hqt, hhy, hybrid_search, hq, Except.bind,
      keyword_search, hsnap]
  · intro hq
    simp [search, semantic_search, hq, Except.map]

/-- Witness for C5 (amended): the three failure modes on concrete
retrievers. -/
theorem search_failure_containment_witness :
    search broken_index_env [] (some "cat") 2 true = [] ∧
    search broken_snapshot_env [] (some "cat") 2 true =
      combine_results broken_snapshot_env.alpha one_hit_results
        empty_results 2 ∧
    search broken_index_env [] (some "cat") 2 false = [] := by
  refine ⟨?_, ?_, ?_⟩
  · exact (search_failure_containment broken_index_env [] "cat" 2
      "index down" one_hit_results).1 rfl rfl (by decide)
  · exact (search_failure_containment broken_snapshot_env [] "cat" 2
      "snapshot down" one_hit_results).2.1 rfl rfl rfl (by decide)
  · exact (search_failure_containment broken_index_env [] "cat" 2
      "index down" one_hit_results).2.2 rfl

/-- Counterexample for C5 as stated: with the semantic index down and the
corpus snapshot healthy, the lexical path alone succeeds with a nonempty
result list, yet hybrid `search` returns the empty list — not the results
of the path that succeeded (the semantic raise at retriever.py line 99 is
outside any local try and aborts the fusion). -/
theorem search_degradation_cex :
    search broken_index_env [] (some "cat") 2 true = [] ∧
    format_search_results
      (keyword_search broken_index_env.get_snapshot "cat" (2 * 2)) ≠ [] := by
  constructor
  · decide
  · decide

/-- Index-wise pairing of two aligned lists over an index range is their
zip. -/
theorem range_map_getD_zip {α β γ : Type} (dx : α) (dy : β) (g : α → β → γ)
    (xs : List α) : ∀ ys : List β, xs.length = ys.length →
    (List.range xs.length).map
        (fun i => g (xs.getD i dx) (ys.getD i dy)) =
      (xs.zip ys).map (fun q => g q.1 q.2) := by
  induction xs with
  | nil => intro ys h; simp
  | cons x xs ih =>
    intro ys h
    cases ys with
    | nil => simp at h
    | cons y ys =>
      have h' : xs.length = ys.length := by simpa using h
      rw [List.length_cons, List.range_succ_eq_map, List.map_cons,
        List.map_map]
      have hcomp : ((fun i => g ((x :: xs).getD i dx) ((y :: ys).getD i dy))
          ∘ Nat.succ) = (fun i => g (xs.getD i dx) (ys.getD i dy)) := by
        funext i
        simp
      rw [hcomp]
      simp only [List.getD_cons_zero]
      rw [ih ys h']
      simp

/-- Index selection by a content predicate over two aligned lists is
filtering of their zip. -/
theorem range_filter_map_getD_zip {α β : Type} (dx : α) (dy : β)
    (p : α → Bool) (xs : List α) : ∀ ys : List β, xs.length = ys.length →
    (((List.range xs.length).filter (fun i => p (xs.getD i dx))).map
        (fun i => (xs.getD i dx, ys.getD i dy))) =
      (xs.zip ys).filter (fun q => p q.1) := by
  induction xs with
  | nil => intro ys h; simp
  | cons x xs ih =>
    intro ys h
    cases ys with
    | nil => simp at h
    | cons y ys =>
      have h' : xs.length = ys.length := by simpa using h
      rw [List.length_cons, List.range_succ_eq_map, List.filter_cons]
      simp only [List.getD_cons_zero]
      rw [List.filter_map]
      have hcomp : ((fun i => p ((x :: xs).getD i dx)) ∘ Nat.succ) =
          (fun i => p (xs.getD i dx)) := by
        funext i
        simp
      rw [hcomp]
      by_cases hp : p x
      · simp only [hp, if_true, List.map_cons, List.map_map]
        have hcomp2 : ((fun i => ((x :: xs).getD i dx, (y :: ys).getD i dy))
            ∘ Nat.succ) = (fun i => (xs.getD i dx, ys.getD i dy)) := by
          funext i
          simp
        rw [hcomp2]
        simp only [List.getD_cons_zero]
        rw [ih ys h']
        simp [hp]
      · simp only [hp, if_false, List.map_map, Bool.false_eq_true]
        have hcomp2 : ((fun i => ((x :: xs).getD i dx, (y :: ys).getD i dy))
            ∘ Nat.succ) = (fun i => (xs.getD i dx, ys.getD i dy)) := by
          funext i
          simp
        rw [hcomp2]
        rw [ih ys h']
        simp [hp]

/-- Formatting the nested result shape that `_keyword_search` constructs
recovers exactly the zipped content/metadata pairs at distance 0. -/
theorem format_constructed (xs : List String) (ys : List ChunkMetadata)
    (k : Nat) (hlen : xs.length = ys.length) (hk : k = xs.length) :
    format_search_results
      { documents := [xs], metadatas := [ys],
        distances := [List.replicate k 0] } =
      (xs.zip ys).map (fun q => SearchDoc.mk q.1 q.2 (some 0)) := by
  subst hk
  unfold format_search_results
  by_cases hxs : xs = []
  · subst hxs
    simp
  · have hrep : (List.replicate xs.length (0 : ℚ)).isEmpty = false := by
      cases xs with
      | nil => exact absurd rfl hxs
      | cons a l => simp
    have hgd : ∀ i, (List.replicate xs.length (0 : ℚ)).getD i 0 = 0 := by
      intro i
      unfold List.getD
      rw [List.get?_eq_getElem?, List.getElem?_replicate]
      by_cases h : i < xs.length
      · simp [h]
      · simp [h]
    simp only [hxs, if_false, List.headD_cons, hrep, Bool.not_false,
      Bool.and_true, Bool.not_true, Bool.and_false, List.isEmpty_cons,
      Bool.and_self, if_true, hgd]
    have := range_map_getD_zip "" (default : ChunkMetadata)
      (fun a b => SearchDoc.mk a b (some 0)) xs ys hlen
    simpa using this

/-- Over aligned content and metadata lists, the lexical retrieval of
`_keyword_search` computes exactly the amended reference pipeline:
filter the zipped corpus by keyword containment, score with the
multiplicity count, sort stably by score descending, truncate. -/
theorem keyword_search_core_amended (ds : List String)
    (ms : List ChunkMetadata) (query_text : String) (n : Nat)
    (hlen : ds.length = ms.length) :
    (format_search_results
      (keyword_search_core ⟨ds, ms⟩ query_text n)).map
        (fun d => (d.content, d.metadata)) =
      amended_lexical_candidates (ds.zip ms) query_text n := by
  simp only [keyword_search_core, amended_lexical_candidates]
  have hfmt : format_search_results empty_results = [] := rfl
  split
  · next h =>
    subst h
    simp [hfmt, List.mergeSort_nil]
  · split
    · next h =>
      simp [h, hfmt, List.mergeSort_nil]
    · split
      · next h =>
        have hmatch : ((List.range ds.length).filter
            (fun i => (extract_keywords query_text).any
              fun kw => contains_keyword (ds.getD i "") kw)).map
              (fun i => (ds.getD i "", ms.getD i default)) =
            (ds.zip ms).filter
              (fun q => (extract_keywords query_text).any
                fun kw => contains_keyword q.1 kw) :=
          range_filter_map_getD_zip "" default
            (fun c => (extract_keywords query_text).any
              fun kw => contains_keyword c kw) ds ms hlen
        rw [← hmatch, h]
        simp [hfmt, List.mergeSort_nil]
      · next h =>
        have hmatch : ((List.range ds.length).filter
            (fun i => (extract_keywords query_text).any
              fun kw => contains_keyword (ds.getD i "") kw)).map
              (fun i => (ds.getD i "", ms.getD i default)) =
            (ds.zip ms).filter
              (fun q => (extract_keywords query_text).any
                fun kw => contains_keyword q.1 kw) :=
          range_filter_map_getD_zip "" default
            (fun c => (extract_keywords query_text).any
              fun kw => contains_keyword c kw) ds ms hlen
        simp only [List.zip_map', List.map_map]
        rw [← List.map_map]
        rw [hmatch]
        have hscore : (fun p : String × ChunkMetadata =>
            (((extract_keywords query_text).filter
                (fun kw => contains_keyword p.1 kw)).length, p.1, p.2)) =
            (fun c : String × ChunkMetadata =>
              (((extract_keywords query_text).filter
                (fun kw => contains_keyword c.1 kw)).length, c)) := by
          funext q
          rfl
        rw [hscore]
        generalize List.take n
          ((List.map (fun c =>
              (((extract_keywords query_text).filter
                (fun kw => contains_keyword c.1 kw)).length, c))
            ((ds.zip ms).filter
              (fun q => (extract_keywords query_text).any
                fun kw => contains_keyword q.1 kw))).mergeSort
            (fun a b => b.1 <= a.1)) = top
        rw [format_constructed (top.map (fun t => t.2.1))
          (top.map (fun t => t.2.2)) top.length (by simp) (by simp)]
        rw [List.zip_map']
        rw [List.map_map, List.map_map]
        rfl

/-- Claim C4 (amended): lexical retrieval extracts at most 5 keywords
from the query text (lower-cased alphabetic tokens of length at least 3,
minus the stop-word set, duplicates kept), scores every corpus chunk
containing at least one keyword by the number of matched entries of that
keyword list counted WITH multiplicity, and returns the top `n` chunks by
that count with ties broken stably by original corpus order. -/
theorem lexical_retrieval_amended (all_docs : CorpusSnapshot)
    (query_text : String) (n : Nat)
    (hlen : all_docs.documents.length = all_docs.metadatas.length) :
    code_lexical_candidates all_docs query_text n =
      amended_lexical_candidates
        (all_docs.documents.zip all_docs.metadatas) query_text n := by
  obtain ⟨ds, ms⟩ := all_docs
  exact keyword_search_core_amended ds ms query_text n hlen

/-- Witness for C4 (amended): the two-chunk snapshot under a two-keyword
query. -/
theorem lexical_retrieval_amended_witness :
    code_lexical_candidates sample_snapshot "cat dog" 4 =
      amended_lexical_candidates
        (sample_snapshot.documents.zip sample_snapshot.metadatas)
        "cat dog" 4 :=
  lexical_retrieval_amended sample_snapshot "cat dog" 4 rfl

/-- Counterexample for C4 as stated: on the query "cat cat cat dog
mouse" the code scores the chunk "cat here" as 3 (the duplicated token
"cat" counts once per repetition) while the count of distinct matched
keywords is 1; the chunk "dog mouse here" scores 2 either way, so the
code returns the two chunks in the opposite order from the
distinct-count specification. -/
theorem lexical_distinct_count_cex :
    code_lexical_candidates sample_snapshot dup_query 4 ≠
      spec_lexical_candidates
        (sample_snapshot.documents.zip sample_snapshot.metadatas)
        dup_query 4 := by
  decide

end RAG
